import Mathlib

/-!
Shallow embedding of the pyth-client-rs core: the `PriceConf` fixed-point
arithmetic (src/price_conf.rs), the account views and derived accessors
(src/lib.rs), the decode error enumeration (src/error.rs), and a model of
the account decoder (whose implementation is not part of the sources here;
it is modelled from the spec).

Machine integers are embedded as `Int`/`Nat`:
* `i64`, `i32` values are `Int`s; `u64`, `u32`, `u128` values are `Nat`s.
* Rust's checked operations (`checked_add`, `checked_sub`, `checked_mul`)
  become `Option`-returning functions that test the exact result against
  the machine range.
* Unchecked Rust arithmetic on a `w`-bit unsigned type carries an explicit
  `% 2^w`; unchecked signed arithmetic goes through `wrap64`/`wrap32`
  (two's-complement wrap-around, i.e. release-mode Rust overflow
  semantics).
* Rust `i64` division by `10` truncates toward zero: `Int.tdiv`.
* A Rust function that can `panic!` (an `assert!`, or an unimplemented
  body) returns a `RustOutcome`, with `.panicked` for the panic.
-/

namespace Pyth

/-- Constant `PD_EXPO` from src/price_conf.rs: the intrinsic extra precision of a division. -/
def PD_EXPO : Int := -9

/-- Constant `PD_SCALE` from src/price_conf.rs: `10^9`. -/
def PD_SCALE : Nat := 1000000000

/-- Constant `MAX_PD_V_U64 = (1 << 28) - 1` from src/price_conf.rs. -/
def MAX_PD_V_U64 : Nat := 268435455

/-- Constant `MAX_PD_V_I64 = MAX_PD_V_U64 as i64` from src/price_conf.rs. -/
def MAX_PD_V_I64 : Int := 268435455

/-- Constant `MIN_PD_V_I64 = -MAX_PD_V_I64` from src/price_conf.rs. -/
def MIN_PD_V_I64 : Int := -268435455

/-- Smallest `i64` value. -/
def i64Min : Int := -9223372036854775808

/-- Largest `i64` value. -/
def i64Max : Int := 9223372036854775807

/-- Largest `u64` value. -/
def u64Max : Nat := 18446744073709551615

/-- Smallest `i32` value. -/
def i32Min : Int := -2147483648

/-- Largest `i32` value. -/
def i32Max : Int := 2147483647

/-- The `PriceConf` struct of src/price_conf.rs: a price `price * 10^expo`
with confidence interval `conf * 10^expo`. -/
structure PriceConf where
  price : Int
  conf : Nat
  expo : Int
deriving DecidableEq, Repr

/-- A `PriceConf` whose fields are representable in the Rust field types
`i64` / `u64` / `i32`. -/
def PriceConf.Wf (q : PriceConf) : Prop :=
  i64Min ≤ q.price ∧ q.price ≤ i64Max ∧ q.conf ≤ u64Max ∧
    i32Min ≤ q.expo ∧ q.expo ≤ i32Max

instance (q : PriceConf) : Decidable q.Wf := by
  unfold PriceConf.Wf; infer_instance

/-- Rust `i32::checked_add`. -/
def i32CheckedAdd (a b : Int) : Option Int :=
  if i32Min ≤ a + b ∧ a + b ≤ i32Max then some (a + b) else none

/-- Rust `i32::checked_sub`. -/
def i32CheckedSub (a b : Int) : Option Int :=
  if i32Min ≤ a - b ∧ a - b ≤ i32Max then some (a - b) else none

/-- Rust `i64::checked_mul`. -/
def i64CheckedMul (a b : Int) : Option Int :=
  if i64Min ≤ a * b ∧ a * b ≤ i64Max then some (a * b) else none

/-- Rust `u64::checked_mul`. -/
def u64CheckedMul (a b : Nat) : Option Nat :=
  if a * b ≤ u64Max then some (a * b) else none

/-- Two's-complement wrap of an integer into the `i64` range
(release-mode Rust overflow behaviour). -/
def wrap64 (x : Int) : Int := (x + 9223372036854775808) % 18446744073709551616 - 9223372036854775808

/-- Two's-complement wrap of an integer into the `i32` range
(release-mode Rust overflow behaviour). -/
def wrap32 (x : Int) : Int := (x + 2147483648) % 4294967296 - 2147483648

/-- Rust `u64 as i64` reinterpretation. -/
def i64OfU64 (n : Nat) : Int :=
  if n < 9223372036854775808 then (n : Int) else (n : Int) - 18446744073709551616

/-- Rust `i64 as u64` reinterpretation: the value modulo `2^64`, as a `Nat`. -/
def u64OfI64 (x : Int) : Nat := (x % 18446744073709551616).toNat

/-- Truncated division of an `Int` by a `Nat` divides the absolute value. -/
theorem natAbs_tdiv_nat (p : Int) (n : Nat) : (p.tdiv (Int.ofNat n)).natAbs = p.natAbs / n := by
  cases p with
  | ofNat m => rfl
  | negSucc m =>
    show (-(Int.ofNat ((m + 1) / n))).natAbs = (m + 1) / n
    rw [Int.natAbs_neg]
    rfl

/-- Specialisation of `natAbs_tdiv_nat` to the divisor 10. -/
theorem natAbs_tdiv_ten (p : Int) : (p.tdiv 10).natAbs = p.natAbs / 10 :=
  natAbs_tdiv_nat p 10

/-- The measure of the `normalize` loop strictly decreases while the loop
condition holds. -/
theorem normMeasureDecreases {p : Int} {c : Nat}
    (h : MAX_PD_V_I64 < p ∨ p < MIN_PD_V_I64 ∨ MAX_PD_V_U64 < c) :
    (p.tdiv 10).natAbs + c / 10 < p.natAbs + c := by
  rw [natAbs_tdiv_ten]
  have hple : p.natAbs / 10 ≤ p.natAbs := Nat.div_le_self _ _
  have hcle : c / 10 ≤ c := Nat.div_le_self _ _
  rcases h with h | h | h
  · have hp : 0 < p.natAbs := by
      have : (0 : Int) < p := lt_trans (by norm_num [MAX_PD_V_I64]) h
      omega
    have : p.natAbs / 10 < p.natAbs := Nat.div_lt_self hp (by norm_num)
    omega
  · have hp : 0 < p.natAbs := by
      have : p < 0 := lt_trans h (by norm_num [MIN_PD_V_I64])
      omega
    have : p.natAbs / 10 < p.natAbs := Nat.div_lt_self hp (by norm_num)
    omega
  · have hc : 0 < c := lt_of_le_of_lt (Nat.zero_le _) h
    have : c / 10 < c := Nat.div_lt_self hc (by norm_num)
    omega

/-- The body of the `while` loop in `PriceConf::normalize`
(src/price_conf.rs): divide price and confidence by 10 and bump the
exponent with `checked_add` until both magnitudes are within the
normalization ceiling. -/
def normalizeLoop (p : Int) (c : Nat) (e : Int) : Option PriceConf :=
  if h : MAX_PD_V_I64 < p ∨ p < MIN_PD_V_I64 ∨ MAX_PD_V_U64 < c then
    match i32CheckedAdd e 1 with
    | none => none
    | some e2 => normalizeLoop (p.tdiv 10) (c / 10) e2
  else
    some ⟨p, c, e⟩
termination_by p.natAbs + c
decreasing_by exact normMeasureDecreases h

/-- Function `PriceConf::normalize` (src/price_conf.rs). -/
def PriceConf.normalize (self : PriceConf) : Option PriceConf :=
  normalizeLoop self.price self.conf self.expo

/-- The number of iterations the `normalize` loop performs on a given
price/confidence pair (independent of the exponent). -/
def normSteps (p : Int) (c : Nat) : Nat :=
  if h : MAX_PD_V_I64 < p ∨ p < MIN_PD_V_I64 ∨ MAX_PD_V_U64 < c then
    normSteps (p.tdiv 10) (c / 10) + 1
  else 0
termination_by p.natAbs + c
decreasing_by exact normMeasureDecreases h

/-- The `delta >= 0` branch of `PriceConf::scale_to_exponent`
(src/price_conf.rs): divide price and confidence by 10, `delta` times
(truncating; never fails). -/
def divLoop : Int → Nat → Nat → Int × Nat
  | p, c, 0 => (p, c)
  | p, c, n + 1 => divLoop (p.tdiv 10) (c / 10) n

/-- The `delta < 0` branch of `PriceConf::scale_to_exponent`
(src/price_conf.rs): multiply price and confidence by 10 with
`checked_mul`, `-delta` times; the Rust `?` operator returns `None` from
the whole function at the first overflow. -/
def mulLoop : Int → Nat → Nat → Option (Int × Nat)
  | p, c, 0 => some (p, c)
  | p, c, n + 1 =>
    match i64CheckedMul p 10 with
    | none => none
    | some p2 =>
      match u64CheckedMul c 10 with
      | none => none
      | some c2 => mulLoop p2 c2 n

/-- Function `PriceConf::scale_to_exponent` (src/price_conf.rs). The initial
`let mut delta = target_expo - self.expo` is an unchecked `i32`
subtraction, so it wraps (two's complement) when the true difference
leaves the `i32` range. -/
def PriceConf.scale_to_exponent (self : PriceConf) (target_expo : Int) : Option PriceConf :=
  let delta := wrap32 (target_expo - self.expo)
  if 0 ≤ delta then
    let pc := divLoop self.price self.conf delta.toNat
    some ⟨pc.1, pc.2, target_expo⟩
  else
    match mulLoop self.price self.conf (-delta).toNat with
    | some pc => some ⟨pc.1, pc.2, target_expo⟩
    | none => none

/-- The result of running a Rust function that may `panic!`. -/
inductive RustOutcome (α : Type) where
  | ok (val : α)
  | panicked
deriving DecidableEq, Repr

/-- Function `PriceConf::to_unsigned` (src/price_conf.rs): split a bounded signed
price into magnitude and sign; the `assert!` panics when the bound is
violated. -/
def PriceConf.to_unsigned (x : Int) : RustOutcome (Nat × Int) :=
  if x ≤ MAX_PD_V_I64 ∧ MIN_PD_V_I64 ≤ x then
    if x < 0 then .ok ((-x).toNat, -1) else .ok (x.toNat, 1)
  else .panicked

/-- Function `PriceConf::div` (src/price_conf.rs). -/
def PriceConf.div (self other : PriceConf) : RustOutcome (Option PriceConf) :=
  match self.normalize with
  | none => .ok none
  | some base =>
  match other.normalize with
  | none => .ok none
  | some o =>
  if o.price = 0 then .ok none else
  match PriceConf.to_unsigned base.price with
  | .panicked => .panicked
  | .ok bp =>
  match PriceConf.to_unsigned o.price with
  | .panicked => .panicked
  | .ok op =>
  -- let midprice = base_price * PD_SCALE / other_price;  (u64 arithmetic)
  let midprice := bp.1 * PD_SCALE % 18446744073709551616 / op.1
  -- let midprice_expo = base.expo.checked_sub(other.expo)?.checked_add(PD_EXPO)?;
  match i32CheckedSub base.expo o.expo with
  | none => .ok none
  | some t =>
  match i32CheckedAdd t PD_EXPO with
  | none => .ok none
  | some midprice_expo =>
  -- let other_confidence_pct: u64 = (other.conf * PD_SCALE) / other_price;
  let other_confidence_pct := o.conf * PD_SCALE % 18446744073709551616 / op.1
  -- let conf = (((base.conf * PD_SCALE) / other_price) as u128)
  --          + ((other_confidence_pct as u128) * (midprice as u128)) / (PD_SCALE as u128);
  -- (the u128 sum is below 2^64 + 2^114, so the u128 addition cannot wrap)
  let conf := base.conf * PD_SCALE % 18446744073709551616 / op.1 +
    other_confidence_pct * midprice % 340282366920938463463374607431768211456 / PD_SCALE
  if conf < u64Max then
    .ok (some ⟨wrap64 (wrap64 (i64OfU64 midprice * bp.2) * op.2), conf, midprice_expo⟩)
  else
    .ok none

/-- Function `PriceConf::add` (src/price_conf.rs): the body is `panic!()`
(flagged `FIXME Implement these functions` in the source). -/
def PriceConf.add (_self _other : PriceConf) : RustOutcome (Option PriceConf) :=
  .panicked

/-- Function `PriceConf::mul` (src/price_conf.rs). -/
def PriceConf.mul (self other : PriceConf) : RustOutcome (Option PriceConf) :=
  match self.normalize with
  | none => .ok none
  | some base =>
  match other.normalize with
  | none => .ok none
  | some o =>
  match PriceConf.to_unsigned base.price with
  | .panicked => .panicked
  | .ok bp =>
  match PriceConf.to_unsigned o.price with
  | .panicked => .panicked
  | .ok op =>
  -- let midprice = base_price * other_price;  (u64 arithmetic)
  let midprice := bp.1 * op.1 % 18446744073709551616
  -- let midprice_expo = base.expo.checked_add(other.expo)?;
  match i32CheckedAdd base.expo o.expo with
  | none => .ok none
  | some midprice_expo =>
  -- let conf = base.conf * other_price + other.conf * base_price;  (u64 arithmetic)
  let conf := (base.conf * op.1 % 18446744073709551616 +
    o.conf * bp.1 % 18446744073709551616) % 18446744073709551616
  .ok (some ⟨wrap64 (wrap64 (i64OfU64 midprice * bp.2) * op.2), conf, midprice_expo⟩)

/-- Function `PriceConf::cmul` (src/price_conf.rs): multiply by a constant. -/
def PriceConf.cmul (self : PriceConf) (c : Int) (e : Int) : RustOutcome (Option PriceConf) :=
  self.mul ⟨c, 0, e⟩

/-! ### Account data model (src/lib.rs) -/

/-- Constant `MAGIC` from src/lib.rs: `0xa1b2c3d4`. -/
def MAGIC : Nat := 2712847316

/-- Constant `VERSION_2` from src/lib.rs. -/
def VERSION_2 : Nat := 2

/-- Constant `VERSION` from src/lib.rs. -/
def VERSION : Nat := VERSION_2

/-- Constant `MAP_TABLE_SIZE` from src/lib.rs. -/
def MAP_TABLE_SIZE : Nat := 640

/-- Constant `PROD_ACCT_SIZE` from src/lib.rs. -/
def PROD_ACCT_SIZE : Nat := 512

/-- Constant `PROD_HDR_SIZE` from src/lib.rs. -/
def PROD_HDR_SIZE : Nat := 48

/-- Constant `PROD_ATTR_SIZE` from src/lib.rs. -/
def PROD_ATTR_SIZE : Nat := PROD_ACCT_SIZE - PROD_HDR_SIZE

/-- The `AccountType` enum of src/lib.rs. -/
inductive AccountType where
  | Unknown
  | Mapping
  | Product
  | Price
deriving DecidableEq, Repr

/-- The `PriceStatus` enum of src/lib.rs; only `Trading` is valid. -/
inductive PriceStatus where
  | Unknown
  | Trading
  | Halted
  | Auction
deriving DecidableEq, Repr

/-- The `CorpAction` enum of src/lib.rs. -/
inductive CorpAction where
  | NoCorpAct
deriving DecidableEq, Repr

/-- The `PriceType` enum of src/lib.rs. -/
inductive PriceType where
  | Unknown
  | Price
deriving DecidableEq, Repr

/-- The `AccKey` struct of src/lib.rs: a 32-byte solana public key. -/
structure AccKey where
  val : List Nat
deriving DecidableEq, Repr

/-- The `PriceInfo` struct of src/lib.rs. -/
structure PriceInfo where
  price : Int
  conf : Nat
  status : PriceStatus
  corp_act : CorpAction
  pub_slot : Nat
deriving DecidableEq, Repr

/-- The `PriceComp` struct of src/lib.rs. -/
structure PriceComp where
  publisher : AccKey
  agg : PriceInfo
  latest : PriceInfo
deriving DecidableEq, Repr

/-- The `Ema` struct of src/lib.rs. -/
structure Ema where
  val : Int
  numer : Int
  denom : Int
deriving DecidableEq, Repr

/-- The `Price` account struct of src/lib.rs. -/
structure Price where
  magic : Nat
  ver : Nat
  atype : Nat
  size : Nat
  ptype : PriceType
  expo : Int
  num : Nat
  num_qt : Nat
  last_slot : Nat
  valid_slot : Nat
  twap : Ema
  twac : Ema
  drv1 : Int
  drv2 : Int
  prod : AccKey
  next : AccKey
  prev_slot : Nat
  prev_price : Int
  prev_conf : Nat
  drv3 : Int
  agg : PriceInfo
  comp : List PriceComp
deriving DecidableEq, Repr

/-- Function `Price::get_current_price` (src/lib.rs): `None` unless the aggregate
status is `Trading`; otherwise the aggregate price/confidence at the
account exponent. -/
def Price.get_current_price (self : Price) : Option PriceConf :=
  match self.agg.status with
  | PriceStatus.Trading => some ⟨self.agg.price, self.agg.conf, self.expo⟩
  | _ => none

/-- Function `Price::get_twap` (src/lib.rs): always `Some`; the confidence is the
stored twac EMA value cast `as u64`. -/
def Price.get_twap (self : Price) : Option PriceConf :=
  some ⟨self.twap.val, u64OfI64 self.twac.val, self.expo⟩

/-! ### Decode errors (src/error.rs) and the account decoder -/

/-- The `PythError` enum of src/error.rs. -/
inductive PythError where
  | InvalidAccountData
  | BadVersionNumber
  | WrongAccountType
deriving DecidableEq, Repr

/-- The `u32` kind-tag value of each `AccountType` (`AccountType as u32`
in src/lib.rs: the declaration order gives `Unknown = 0`, `Mapping = 1`,
`Product = 2`, `Price = 3`). -/
def accountTypeTag : AccountType → Nat
  | AccountType.Unknown => 0
  | AccountType.Mapping => 1
  | AccountType.Product => 2
  | AccountType.Price => 3

/-- Modelled from the spec: the byte size of each account layout
(§6: little-endian, fixed-size, every field at a known offset), computed
from the field lists of src/lib.rs with `u32` = 4 bytes, `i64`/`u64` = 8
bytes, enum tags = 4 bytes, `AccKey` = 32 bytes. The decoder that uses
these sizes is not among the sources here. -/
def layoutSize : AccountType → Nat
  | AccountType.Unknown => 16
  | AccountType.Mapping => 20536
  | AccountType.Product => 512
  | AccountType.Price => 3312

/-- Modelled from the spec: read a little-endian `u32` at a fixed byte
offset of the buffer. -/
def readU32LE (bytes : List Nat) (off : Nat) : Nat :=
  bytes.getD off 0 + 256 * bytes.getD (off + 1) 0 +
    65536 * bytes.getD (off + 2) 0 + 16777216 * bytes.getD (off + 3) 0

/-- The header fields every account kind starts with (src/lib.rs:
`magic`, `ver`, `atype`, `size`). -/
structure AccountHeader where
  magic : Nat
  ver : Nat
  atype : Nat
  size : Nat
deriving DecidableEq, Repr

/-- Modelled from the spec: `decode(bytes, expected_kind)` (§4.1) — the
`load_mapping` / `load_product` / `load_price` functions are not among
the sources here (only a caller in src/processor.rs is). Requires
`len(bytes) ≥ size_of(target layout)`, otherwise `InvalidAccountData`;
then checks magic (`InvalidAccountData`), version (`BadVersionNumber`),
and kind tag (`WrongAccountType`), in that order, reading each header
field at its fixed little-endian offset. -/
def decode (expected : AccountType) (bytes : List Nat) : Except PythError AccountHeader :=
  if bytes.length < layoutSize expected then
    Except.error PythError.InvalidAccountData
  else if readU32LE bytes 0 ≠ MAGIC then
    Except.error PythError.InvalidAccountData
  else if readU32LE bytes 4 ≠ VERSION_2 then
    Except.error PythError.BadVersionNumber
  else if readU32LE bytes 8 ≠ accountTypeTag expected then
    Except.error PythError.WrongAccountType
  else
    Except.ok ⟨readU32LE bytes 0, readU32LE bytes 4, readU32LE bytes 8, readU32LE bytes 12⟩

/-! ### Lemmas about the normalize loop -/

/-- When both magnitudes are already within the ceiling, the `normalize`
loop stops immediately. -/
theorem normalizeLoop_stop {p : Int} {c : Nat} {e : Int}
    (h : ¬(MAX_PD_V_I64 < p ∨ p < MIN_PD_V_I64 ∨ MAX_PD_V_U64 < c)) :
    normalizeLoop p c e = some ⟨p, c, e⟩ := by
  unfold normalizeLoop
  simp [h]

/-- A successful run of the `normalize` loop ends with both magnitudes
within the ceiling. -/
theorem normalizeLoop_bounds (p : Int) (c : Nat) (e : Int) (r : PriceConf)
    (h : normalizeLoop p c e = some r) :
    MIN_PD_V_I64 ≤ r.price ∧ r.price ≤ MAX_PD_V_I64 ∧ r.conf ≤ MAX_PD_V_U64 := by
  induction p, c, e using normalizeLoop.induct with
  | case1 p c e hg hadd =>
    rw [normalizeLoop] at h
    simp [hg, hadd] at h
  | case2 p c e hg e2 hadd ih =>
    rw [normalizeLoop] at h
    simp only [dif_pos hg, hadd] at h
    exact ih h
  | case3 p c e hg =>
    rw [normalizeLoop_stop hg] at h
    rw [not_or, not_or] at hg
    cases h
    exact ⟨not_lt.mp hg.2.1, not_lt.mp hg.1, not_lt.mp hg.2.2⟩

/-- A `PriceConf` that already satisfies the normalization bounds is a
fixed point of `normalize`. -/
theorem normalize_of_bounds (q : PriceConf) (h1 : MIN_PD_V_I64 ≤ q.price)
    (h2 : q.price ≤ MAX_PD_V_I64) (h3 : q.conf ≤ MAX_PD_V_U64) :
    q.normalize = some q := by
  unfold PriceConf.normalize
  rw [normalizeLoop_stop (by rw [not_or, not_or]; exact ⟨not_lt.mpr h2, not_lt.mpr h1, not_lt.mpr h3⟩)]

/-- Any output of `normalize` satisfies the normalization bounds. -/
theorem normalize_bounds {q r : PriceConf} (h : q.normalize = some r) :
    MIN_PD_V_I64 ≤ r.price ∧ r.price ≤ MAX_PD_V_I64 ∧ r.conf ≤ MAX_PD_V_U64 :=
  normalizeLoop_bounds q.price q.conf q.expo r h

/-- Any output of `normalize` is itself a fixed point of `normalize`. -/
theorem normalize_fixed {q r : PriceConf} (h : q.normalize = some r) :
    r.normalize = some r := by
  obtain ⟨h1, h2, h3⟩ := normalize_bounds h
  exact normalize_of_bounds r h1 h2 h3

/-- Evaluation lemma: `normalize ⟨1, 1, 0⟩` stops immediately. -/
theorem normalize_one_one_zero : PriceConf.normalize ⟨1, 1, 0⟩ = some ⟨1, 1, 0⟩ := by
  unfold PriceConf.normalize normalizeLoop
  norm_num [MAX_PD_V_I64, MIN_PD_V_I64, MAX_PD_V_U64]

/-! ### Lemmas about wrapping, scaling, and the checked operations -/

/-- Wrapping `wrap32` is the identity on the `i32` range. -/
theorem wrap32_eq_self {x : Int} (h1 : i32Min ≤ x) (h2 : x ≤ i32Max) : wrap32 x = x := by
  unfold wrap32 i32Min at *
  unfold i32Max at h2
  omega

/-- Truncated division composes over a product of `Nat` divisors. -/
theorem tdiv_tdiv_nat (p : Int) (a b : Nat) :
    (p.tdiv (Int.ofNat a)).tdiv (Int.ofNat b) = p.tdiv (Int.ofNat (a * b)) := by
  cases p with
  | ofNat m =>
    show (Int.ofNat (m / a)).tdiv (Int.ofNat b) = Int.ofNat (m / (a * b))
    rw [show (Int.ofNat (m / a)).tdiv (Int.ofNat b) = Int.ofNat (m / a / b) from rfl,
      Nat.div_div_eq_div_mul]
  | negSucc m =>
    show (-(Int.ofNat ((m + 1) / a))).tdiv (Int.ofNat b) = -(Int.ofNat ((m + 1) / (a * b)))
    rw [Int.neg_tdiv,
      show (Int.ofNat ((m + 1) / a)).tdiv (Int.ofNat b) = Int.ofNat ((m + 1) / a / b) from rfl,
      Nat.div_div_eq_div_mul]

/-- Bridge between the `Nat` power and the `Int` power of 10. -/
theorem ofNat_ten_pow (d : Nat) : Int.ofNat (10 ^ d) = (10 : Int) ^ d := by
  rw [Int.ofNat_eq_coe, Int.natCast_pow]
  norm_num

/-- Running the division loop `n` times divides by `10^n` (truncating). -/
theorem divLoop_eq (n : Nat) : ∀ (p : Int) (c : Nat),
    divLoop p c n = (p.tdiv (Int.ofNat (10 ^ n)), c / 10 ^ n) := by
  induction n with
  | zero =>
    intro p c
    show (p, c) = _
    rw [show Int.ofNat (10 ^ 0) = 1 from rfl, Int.tdiv_one, Nat.pow_zero, Nat.div_one]
  | succ n ih =>
    intro p c
    show divLoop (p.tdiv 10) (c / 10) n = _
    rw [ih, show (10 : Int) = Int.ofNat 10 from rfl, tdiv_tdiv_nat, Nat.div_div_eq_div_mul]
    rw [show 10 * 10 ^ n = 10 ^ (n + 1) from by ring]

/-- If `x * 10^n` lies in the `i64` range, so does `x`. -/
theorem int_bounds_of_mul_pow {x : Int} {n : Nat}
    (h1 : i64Min ≤ x * (10 : Int) ^ n) (h2 : x * (10 : Int) ^ n ≤ i64Max) :
    i64Min ≤ x ∧ x ≤ i64Max := by
  have h0 : (0 : Int) < 10 ^ n := pow_pos (by norm_num) n
  rcases le_or_lt 0 x with hx | hx
  · have hmono : x * 1 ≤ x * 10 ^ n := by
      apply mul_le_mul_of_nonneg_left _ hx
      omega
    rw [mul_one] at hmono
    unfold i64Min i64Max at *
    omega
  · have hmono : x * 10 ^ n ≤ x * 1 := by
      apply mul_le_mul_of_nonpos_left _ (le_of_lt hx)
      omega
    rw [mul_one] at hmono
    unfold i64Min i64Max at *
    omega

/-- When the final products stay within the machine ranges, the
checked-multiplication loop succeeds and multiplies by `10^n`. -/
theorem mulLoop_eq (n : Nat) : ∀ (p : Int) (c : Nat),
    i64Min ≤ p * (10 : Int) ^ n → p * (10 : Int) ^ n ≤ i64Max → c * 10 ^ n ≤ u64Max →
    mulLoop p c n = some (p * (10 : Int) ^ n, c * 10 ^ n) := by
  induction n with
  | zero =>
    intro p c _ _ _
    show some (p, c) = _
    rw [pow_zero, mul_one, Nat.pow_zero, Nat.mul_one]
  | succ n ih =>
    intro p c h1 h2 h3
    have hps : p * (10 : Int) ^ (n + 1) = (p * 10) * 10 ^ n := by ring
    have hcs : c * 10 ^ (n + 1) = (c * 10) * 10 ^ n := by ring
    rw [hps] at h1 h2
    rw [hcs] at h3
    have hp10 := int_bounds_of_mul_pow h1 h2
    have hc10 : c * 10 ≤ u64Max :=
      le_trans (Nat.le_mul_of_pos_right _ (Nat.pos_pow_of_pos n (by norm_num))) h3
    show (match i64CheckedMul p 10 with
      | none => none
      | some p2 =>
        match u64CheckedMul c 10 with
        | none => none
        | some c2 => mulLoop p2 c2 n) = _
    rw [show i64CheckedMul p 10 = some (p * 10) from by
      unfold i64CheckedMul
      rw [if_pos ⟨hp10.1, hp10.2⟩]]
    rw [show u64CheckedMul c 10 = some (c * 10) from by
      unfold u64CheckedMul
      rw [if_pos hc10]]
    show mulLoop (p * 10) (c * 10) n = _
    rw [ih (p * 10) (c * 10) h1 h2 h3, hps, hcs]

/-- Truncated division by a nonnegative divisor preserves nonnegativity. -/
theorem tdiv_sign_nonneg {p : Int} {n : Nat} (hp : 0 ≤ p) : 0 ≤ p.tdiv (Int.ofNat n) :=
  Int.tdiv_nonneg hp (Int.ofNat_nonneg n)

/-- Truncated division by a nonnegative divisor preserves nonpositivity. -/
theorem tdiv_sign_nonpos {p : Int} {n : Nat} (hp : p ≤ 0) : p.tdiv (Int.ofNat n) ≤ 0 := by
  have h := Int.tdiv_nonneg (a := -p) (b := Int.ofNat n) (by omega) (Int.ofNat_nonneg n)
  rw [Int.neg_tdiv] at h
  omega

/-- Truncated division by 10 preserves nonnegativity. -/
theorem tdiv_ten_nonneg {p : Int} (hp : 0 ≤ p) : 0 ≤ p.tdiv 10 :=
  Int.tdiv_nonneg hp (by norm_num)

/-- Truncated division by 10 preserves nonpositivity. -/
theorem tdiv_ten_nonpos {p : Int} (hp : p ≤ 0) : p.tdiv 10 ≤ 0 := by
  have h := Int.tdiv_nonneg (a := -p) (b := 10) (by omega) (by norm_num)
  rw [Int.neg_tdiv] at h
  omega

/-- Inversion of a successful `i32` checked addition. -/
theorem i32CheckedAdd_some {a b r : Int} (h : i32CheckedAdd a b = some r) :
    r = a + b ∧ i32Min ≤ a + b ∧ a + b ≤ i32Max := by
  unfold i32CheckedAdd at h
  by_cases hc : i32Min ≤ a + b ∧ a + b ≤ i32Max
  · rw [if_pos hc] at h
    exact ⟨(Option.some.inj h).symm, hc⟩
  · rw [if_neg hc] at h
    cases h

/-- Inversion of a failed `i32` checked addition. -/
theorem i32CheckedAdd_none {a b : Int} (h : i32CheckedAdd a b = none) :
    ¬(i32Min ≤ a + b ∧ a + b ≤ i32Max) := by
  unfold i32CheckedAdd at h
  by_cases hc : i32Min ≤ a + b ∧ a + b ≤ i32Max
  · rw [if_pos hc] at h
    cases h
  · exact hc

/-- The `normalize` loop never flips the sign of the price. -/
theorem normalizeLoop_sign (p : Int) (c : Nat) (e : Int) (r : PriceConf)
    (h : normalizeLoop p c e = some r) :
    (0 ≤ p → 0 ≤ r.price) ∧ (p ≤ 0 → r.price ≤ 0) := by
  induction p, c, e using normalizeLoop.induct with
  | case1 p c e hg hadd =>
    rw [normalizeLoop] at h
    simp [hg, hadd] at h
  | case2 p c e hg e2 hadd ih =>
    rw [normalizeLoop] at h
    simp only [dif_pos hg, hadd] at h
    have hih := ih h
    exact ⟨fun hp => hih.1 (tdiv_ten_nonneg hp), fun hp => hih.2 (tdiv_ten_nonpos hp)⟩
  | case3 p c e hg =>
    rw [normalizeLoop_stop hg] at h
    cases h
    exact ⟨fun hp => hp, fun hp => hp⟩

/-- The `normalize` loop fails exactly when the exponent increments
would push the exponent beyond the `i32` maximum. -/
theorem normalizeLoop_none_iff (p : Int) (c : Nat) (e : Int) :
    i32Min ≤ e → e ≤ i32Max →
    (normalizeLoop p c e = none ↔ i32Max < e + (normSteps p c : Int)) := by
  induction p, c, e using normalizeLoop.induct with
  | case1 p c e hg hadd =>
    intro h1 _
    have hs : normSteps p c = normSteps (p.tdiv 10) (c / 10) + 1 := by
      rw [normSteps]
      rw [dif_pos hg]
    have hb := i32CheckedAdd_none hadd
    rw [normalizeLoop, dif_pos hg, hadd]
    simp only [true_iff, iff_true]
    rw [hs]
    push_cast
    omega
  | case2 p c e hg e2 hadd ih =>
    intro _ _
    have hs : normSteps p c = normSteps (p.tdiv 10) (c / 10) + 1 := by
      rw [normSteps]
      rw [dif_pos hg]
    obtain ⟨he2, hb1, hb2⟩ := i32CheckedAdd_some hadd
    rw [normalizeLoop, dif_pos hg, hadd]
    rw [ih (by omega) (by omega)]
    rw [hs]
    push_cast
    omega
  | case3 p c e hg =>
    intro _ h2
    have hs : normSteps p c = 0 := by
      rw [normSteps]
      rw [dif_neg hg]
    rw [normalizeLoop_stop hg, hs]
    push_cast
    constructor
    · intro hfalse
      cases hfalse
    · intro hgt
      omega

/-- Function `to_unsigned` does not hit its `assert!` on a bounded price. -/
theorem to_unsigned_ok {x : Int} (h1 : MIN_PD_V_I64 ≤ x) (h2 : x ≤ MAX_PD_V_I64) :
    ∃ pr, PriceConf.to_unsigned x = RustOutcome.ok pr := by
  unfold PriceConf.to_unsigned
  rw [if_pos ⟨h2, h1⟩]
  by_cases hx : x < 0
  · rw [if_pos hx]
    exact ⟨_, rfl⟩
  · rw [if_neg hx]
    exact ⟨_, rfl⟩

/-- Function `div` returns `None` when the exponent subtraction overflows `i32`. -/
theorem div_ok_none_of_sub_none {a b base o : PriceConf}
    (ha : a.normalize = some base) (hb : b.normalize = some o) (hz : o.price ≠ 0)
    (hsub : i32CheckedSub base.expo o.expo = none) :
    a.div b = RustOutcome.ok none := by
  obtain ⟨bp, hbp⟩ := to_unsigned_ok (normalize_bounds ha).1 (normalize_bounds ha).2.1
  obtain ⟨op, hop⟩ := to_unsigned_ok (normalize_bounds hb).1 (normalize_bounds hb).2.1
  unfold PriceConf.div
  rw [ha, hb]
  simp only [hz, hbp, hop, hsub, if_false]

/-- Function `div` returns `None` when adding `PD_EXPO` to the exponent
difference overflows `i32`. -/
theorem div_ok_none_of_add_none {a b base o : PriceConf} {t : Int}
    (ha : a.normalize = some base) (hb : b.normalize = some o) (hz : o.price ≠ 0)
    (hsub : i32CheckedSub base.expo o.expo = some t)
    (hadd : i32CheckedAdd t PD_EXPO = none) :
    a.div b = RustOutcome.ok none := by
  obtain ⟨bp, hbp⟩ := to_unsigned_ok (normalize_bounds ha).1 (normalize_bounds ha).2.1
  obtain ⟨op, hop⟩ := to_unsigned_ok (normalize_bounds hb).1 (normalize_bounds hb).2.1
  unfold PriceConf.div
  rw [ha, hb]
  simp only [hz, hbp, hop, hsub, hadd, if_false]

/-- Function `mul` returns `None` when the exponent addition overflows `i32`. -/
theorem mul_ok_none_of_add_none {a b base o : PriceConf}
    (ha : a.normalize = some base) (hb : b.normalize = some o)
    (hadd : i32CheckedAdd base.expo o.expo = none) :
    a.mul b = RustOutcome.ok none := by
  obtain ⟨bp, hbp⟩ := to_unsigned_ok (normalize_bounds ha).1 (normalize_bounds ha).2.1
  obtain ⟨op, hop⟩ := to_unsigned_ok (normalize_bounds hb).1 (normalize_bounds hb).2.1
  unfold PriceConf.mul
  rw [ha, hb]
  simp only [hbp, hop, hadd]

/-- Evaluation lemma: `normalize ⟨1, 1, i32::MAX⟩` stops immediately. -/
theorem normalize_one_one_i32max :
    PriceConf.normalize ⟨1, 1, 2147483647⟩ = some ⟨1, 1, 2147483647⟩ := by
  unfold PriceConf.normalize normalizeLoop
  norm_num [MAX_PD_V_I64, MIN_PD_V_I64, MAX_PD_V_U64]

/-- Evaluation lemma: `normalize ⟨1, 1, -1⟩` stops immediately. -/
theorem normalize_one_one_negone :
    PriceConf.normalize ⟨1, 1, -1⟩ = some ⟨1, 1, -1⟩ := by
  unfold PriceConf.normalize normalizeLoop
  norm_num [MAX_PD_V_I64, MIN_PD_V_I64, MAX_PD_V_U64]

/-! ### Claim theorems -/

/-- C1 (counterexample): `div({1,1,0}, {1,1,0})` does not return the
struct `{price: 1, conf: 2, expo: -9}`. -/
theorem C1_counterexample :
    PriceConf.div ⟨1, 1, 0⟩ ⟨1, 1, 0⟩ ≠ RustOutcome.ok (some ⟨1, 2, -9⟩) := by
  simp [PriceConf.div, normalize_one_one_zero]
  decide

/-- C1 (amended): `div({1,1,0}, {1,1,0})` returns
`Some {price: 10^9, conf: 2*10^9, expo: -9}` — the value `1 ± 2` carried
at exponent `-9`, i.e. `{1, 2, 0}` rescaled to exponent `-9`. -/
theorem C1_div_concrete :
    PriceConf.div ⟨1, 1, 0⟩ ⟨1, 1, 0⟩ =
      RustOutcome.ok (some ⟨1000000000, 2000000000, -9⟩) := by
  simp [PriceConf.div, normalize_one_one_zero]
  decide

/-- C3 (code bug): `add` is unimplemented in the source — its body is
`panic!()` — so on every input, in particular `{1,1,0} + {1,1,0}`, it
panics instead of returning `None`/`Some` as the claim describes. -/
theorem C3_add_panics :
    PriceConf.add ⟨1, 1, 0⟩ ⟨1, 1, 0⟩ = RustOutcome.panicked := rfl

/-- C5: `get_current_price` returns `Some {agg.price, agg.conf, expo}`
exactly when the aggregate status is `Trading`, and `None` for every
other status value, independent of the stored numeric fields. -/
theorem C5_current_price (p : Price) :
    p.get_current_price =
      if p.agg.status = PriceStatus.Trading then
        some ⟨p.agg.price, p.agg.conf, p.expo⟩
      else none := by
  unfold Price.get_current_price
  cases h : p.agg.status <;> simp [h]

/-- C6: `normalize` is idempotent: composing `normalize` with itself (in
the `Option` monad) equals a single `normalize`, and any `Some` result of
`normalize` is a fixed point. -/
theorem C6_normalize_idempotent (q : PriceConf) :
    q.normalize.bind PriceConf.normalize = q.normalize ∧
      ∀ r, q.normalize = some r → r.normalize = some r := by
  refine ⟨?_, fun r h => normalize_fixed h⟩
  cases h : q.normalize with
  | none => rfl
  | some r => simpa [h] using normalize_fixed h

/-- C6 witness: a concrete quantity needing two normalization steps. -/
theorem C6_witness :
    PriceConf.normalize ⟨10000000000, 5, 0⟩ = some ⟨100000000, 0, 2⟩ ∧
      PriceConf.normalize ⟨100000000, 0, 2⟩ = some ⟨100000000, 0, 2⟩ := by
  have t1 : Int.tdiv 10000000000 10 = 1000000000 := by decide
  have t2 : Int.tdiv 1000000000 10 = 100000000 := by decide
  have hev : PriceConf.normalize ⟨10000000000, 5, 0⟩ = some ⟨100000000, 0, 2⟩ := by
    unfold PriceConf.normalize
    rw [normalizeLoop]
    norm_num [MAX_PD_V_I64, MIN_PD_V_I64, MAX_PD_V_U64, i32CheckedAdd, i32Min, i32Max, t1]
    rw [normalizeLoop]
    norm_num [MAX_PD_V_I64, MIN_PD_V_I64, MAX_PD_V_U64, i32CheckedAdd, i32Min, i32Max, t2]
    rw [normalizeLoop]
    norm_num [MAX_PD_V_I64, MIN_PD_V_I64, MAX_PD_V_U64]
  exact ⟨hev, (C6_normalize_idempotent ⟨10000000000, 5, 0⟩).2 ⟨100000000, 0, 2⟩ hev⟩

/-- C10: `get_twap` always returns `Some`; the price is the stored twap
EMA value, the exponent is the account exponent, and the confidence is
the stored twac EMA value (an `i64`) reinterpreted as `u64`, i.e. taken
modulo `2^64` — so a negative stored twac yields a confidence of at least
`2^63` rather than an error. -/
theorem C10_twap (p : Price) (hmin : i64Min ≤ p.twac.val) (hmax : p.twac.val ≤ i64Max) :
    p.get_twap = some ⟨p.twap.val, (p.twac.val % 18446744073709551616).toNat, p.expo⟩ ∧
      (p.twac.val < 0 → 9223372036854775808 ≤ (p.twac.val % 18446744073709551616).toNat) := by
  refine ⟨rfl, fun hneg => ?_⟩
  unfold i64Min at hmin
  omega

/-- C10 witness: a concrete price account whose stored twac value is
`-1`; the returned confidence is `2^64 - 1 ≥ 2^63`. -/
theorem C10_witness :
    Price.get_twap
        ⟨2712847316, 2, 3, 3312, PriceType.Price, -5, 0, 0, 0, 0, ⟨100, 0, 0⟩, ⟨-1, 0, 0⟩,
          0, 0, ⟨[]⟩, ⟨[]⟩, 0, 0, 0, 0, ⟨0, 0, PriceStatus.Trading, CorpAction.NoCorpAct, 0⟩, []⟩ =
      some ⟨100, 18446744073709551615, -5⟩ ∧
      (9223372036854775808 : Nat) ≤ 18446744073709551615 := by
  have h := C10_twap
    ⟨2712847316, 2, 3, 3312, PriceType.Price, -5, 0, 0, 0, 0, ⟨100, 0, 0⟩, ⟨-1, 0, 0⟩,
      0, 0, ⟨[]⟩, ⟨[]⟩, 0, 0, 0, 0, ⟨0, 0, PriceStatus.Trading, CorpAction.NoCorpAct, 0⟩, []⟩
    (by norm_num [i64Min]) (by norm_num [i64Max])
  exact ⟨h.1.trans (by decide), by norm_num⟩

/-- C4 (spec-modelled decoder): decode checks buffer length, then magic,
then version, then kind tag, first mismatch winning: a short buffer fails
`InvalidAccountData` regardless of content; at full size a wrong magic
fails `InvalidAccountData`, a wrong version (with good magic) fails
`BadVersionNumber`, and a wrong kind tag (with good magic and version)
fails `WrongAccountType`. -/
theorem C4_decode_order (k : AccountType) (bytes : List Nat) :
    (bytes.length < layoutSize k →
      decode k bytes = Except.error PythError.InvalidAccountData) ∧
    (layoutSize k ≤ bytes.length →
      (readU32LE bytes 0 ≠ MAGIC →
        decode k bytes = Except.error PythError.InvalidAccountData) ∧
      (readU32LE bytes 0 = MAGIC → readU32LE bytes 4 ≠ VERSION_2 →
        decode k bytes = Except.error PythError.BadVersionNumber) ∧
      (readU32LE bytes 0 = MAGIC → readU32LE bytes 4 = VERSION_2 →
        readU32LE bytes 8 ≠ accountTypeTag k →
        decode k bytes = Except.error PythError.WrongAccountType)) := by
  constructor
  · intro hshort
    unfold decode
    rw [if_pos hshort]
  · intro hlen
    have hnl : ¬bytes.length < layoutSize k := Nat.not_lt.mpr hlen
    refine ⟨?_, ?_, ?_⟩
    · intro hmagic
      unfold decode
      rw [if_neg hnl, if_pos hmagic]
    · intro hmagic hver
      unfold decode
      rw [if_neg hnl, if_neg (by simpa using hmagic), if_pos hver]
    · intro hmagic hver htag
      unfold decode
      rw [if_neg hnl, if_neg (by simpa using hmagic), if_neg (by simpa using hver), if_pos htag]

/-- C4 witness: an all-zero 512-byte product-account buffer is rejected
as `InvalidAccountData` (wrong magic), and a one-byte buffer is rejected
as `InvalidAccountData` (too short). -/
theorem C4_witness :
    decode AccountType.Product (List.replicate 512 0) =
        Except.error PythError.InvalidAccountData ∧
      decode AccountType.Product [0] = Except.error PythError.InvalidAccountData := by
  constructor
  · exact ((C4_decode_order AccountType.Product (List.replicate 512 0)).2
      (by rw [List.length_replicate]; decide)).1 (by decide)
  · exact (C4_decode_order AccountType.Product [0]).1 (by decide)

/-- C2 (counterexample): `scale_to_exponent` computes
`delta = target_expo - self.expo` with an unchecked `i32` subtraction.
For `q = {5, 5, i32::MAX}` and `target_expo = i32::MIN` the true
difference is `-(2^32 - 1)`, which leaves the `i32` range; instead of
failing, the subtraction wraps to `1` and the call returns
`Some {0, 0, i32::MIN}`. -/
theorem C2_counterexample :
    PriceConf.scale_to_exponent ⟨5, 5, 2147483647⟩ (-2147483648) =
      some ⟨0, 0, -2147483648⟩ := by
  decide

/-- C2 (amended): the exponent arithmetic of `normalize`, `div` and
`mul` is checked — `normalize` fails only when the exponent increments
would exceed `i32::MAX`, and `div`/`mul` return `None` whenever their
checked exponent subtraction/addition overflows `i32` — but
`scale_to_exponent`'s initial `delta` subtraction is unchecked and wraps
silently (see the counterexample). -/
theorem C2_checked_exponents :
    (∀ q : PriceConf, i32Min ≤ q.expo → q.expo ≤ i32Max →
      q.expo + (normSteps q.price q.conf : Int) ≤ i32Max → q.normalize ≠ none) ∧
    (∀ a b base o : PriceConf, a.normalize = some base → b.normalize = some o →
      o.price ≠ 0 → i32CheckedSub base.expo o.expo = none →
      a.div b = RustOutcome.ok none) ∧
    (∀ a b base o : PriceConf, ∀ t : Int, a.normalize = some base → b.normalize = some o →
      o.price ≠ 0 → i32CheckedSub base.expo o.expo = some t →
      i32CheckedAdd t PD_EXPO = none → a.div b = RustOutcome.ok none) ∧
    (∀ a b base o : PriceConf, a.normalize = some base → b.normalize = some o →
      i32CheckedAdd base.expo o.expo = none → a.mul b = RustOutcome.ok none) := by
  refine ⟨?_, ?_, ?_, ?_⟩
  · intro q h1 h2 hsteps hnone
    have := (normalizeLoop_none_iff q.price q.conf q.expo h1 h2).mp hnone
    omega
  · intro a b base o ha hb hz hsub
    exact div_ok_none_of_sub_none ha hb hz hsub
  · intro a b base o t ha hb hz hsub hadd
    exact div_ok_none_of_add_none ha hb hz hsub hadd
  · intro a b base o ha hb hadd
    exact mul_ok_none_of_add_none ha hb hadd

/-- C2 witness: dividing `{1, 1, i32::MAX}` by `{1, 1, -1}` makes the
checked exponent subtraction overflow, so `div` returns `None`. -/
theorem C2_witness :
    PriceConf.div ⟨1, 1, 2147483647⟩ ⟨1, 1, -1⟩ = RustOutcome.ok none :=
  C2_checked_exponents.2.1 ⟨1, 1, 2147483647⟩ ⟨1, 1, -1⟩ ⟨1, 1, 2147483647⟩ ⟨1, 1, -1⟩
    normalize_one_one_i32max normalize_one_one_negone (by norm_num) (by decide)

/-- C7 (counterexample): for `q = {2^62, 0, i32::MIN}` and
`target_expo = i32::MAX ≥ q.expo`, widening does not succeed: the true
exponent difference `2^32 - 1` wraps to `-1`, the call takes the
checked-multiplication branch, and `2^62 * 10` overflows `i64`, so the
result is `None`. -/
theorem C7_counterexample :
    PriceConf.scale_to_exponent ⟨4611686018427387904, 0, -2147483648⟩ 2147483647 = none := by
  decide

/-- C7 (amended): for every quantity `q` and target exponent
`target_expo ≥ q.expo` whose difference `d = target_expo - q.expo` also
fits in `i32`, widening succeeds and truncates price and confidence by
`10^d`; narrowing the result back to `q.expo` also succeeds and yields
the price with its lowest `d` decimal digits zeroed
(`(q.price tdiv 10^d) * 10^d`), whose magnitude never exceeds
`|q.price|`; likewise for the confidence. Without the extra `i32` bound
on `d` the unchecked `delta` subtraction wraps (see the
counterexample). -/
theorem C7_scale_roundtrip (q : PriceConf) (t : Int) (d : Nat) (hwf : q.Wf)
    (hd : t - q.expo = (d : Int)) (hdle : (d : Int) ≤ i32Max) :
    q.scale_to_exponent t =
      some ⟨q.price.tdiv (Int.ofNat (10 ^ d)), q.conf / 10 ^ d, t⟩ ∧
    PriceConf.scale_to_exponent
        ⟨q.price.tdiv (Int.ofNat (10 ^ d)), q.conf / 10 ^ d, t⟩ q.expo =
      some ⟨q.price.tdiv (Int.ofNat (10 ^ d)) * (10 : Int) ^ d,
        q.conf / 10 ^ d * 10 ^ d, q.expo⟩ ∧
    (q.price.tdiv (Int.ofNat (10 ^ d)) * (10 : Int) ^ d).natAbs ≤ q.price.natAbs ∧
    q.conf / 10 ^ d * 10 ^ d ≤ q.conf := by
  obtain ⟨hq1, hq2, hq3, hq4, hq5⟩ := hwf
  have hd0 : 0 ≤ t - q.expo := by omega
  have hw1 : wrap32 (t - q.expo) = t - q.expo :=
    wrap32_eq_self (by unfold i32Min; omega) (by omega)
  have hA : (q.price.tdiv (Int.ofNat (10 ^ d)) * (10 : Int) ^ d).natAbs ≤ q.price.natAbs := by
    rw [Int.natAbs_mul, natAbs_tdiv_nat]
    rw [show ((10 : Int) ^ d).natAbs = 10 ^ d from by
      rw [← ofNat_ten_pow]
      exact Int.natAbs_ofNat _]
    exact Nat.div_mul_le_self _ _
  have hsign : (0 ≤ q.price → 0 ≤ q.price.tdiv (Int.ofNat (10 ^ d)) * (10 : Int) ^ d) ∧
      (q.price ≤ 0 → q.price.tdiv (Int.ofNat (10 ^ d)) * (10 : Int) ^ d ≤ 0) := by
    constructor
    · intro hp
      exact mul_nonneg (tdiv_sign_nonneg hp) (by positivity)
    · intro hp
      have hw : q.price.tdiv (Int.ofNat (10 ^ d)) ≤ 0 := tdiv_sign_nonpos hp
      have := mul_le_mul_of_nonneg_right hw (by positivity : (0 : Int) ≤ (10 : Int) ^ d)
      rwa [zero_mul] at this
  have hB1 : i64Min ≤ q.price.tdiv (Int.ofNat (10 ^ d)) * (10 : Int) ^ d ∧
      q.price.tdiv (Int.ofNat (10 ^ d)) * (10 : Int) ^ d ≤ i64Max := by
    unfold i64Min i64Max at *
    rcases le_or_lt 0 q.price with hp | hp
    · have := hsign.1 hp
      omega
    · have := hsign.2 (le_of_lt hp)
      omega
  have hB3 : (q.conf / 10 ^ d) * 10 ^ d ≤ u64Max :=
    le_trans (Nat.div_mul_le_self _ _) hq3
  have hC : (q.conf / 10 ^ d) * 10 ^ d ≤ q.conf := Nat.div_mul_le_self _ _
  have hpart1 : q.scale_to_exponent t =
      some ⟨q.price.tdiv (Int.ofNat (10 ^ d)), q.conf / 10 ^ d, t⟩ := by
    unfold PriceConf.scale_to_exponent
    simp only
    rw [hw1, hd, if_pos (by omega : (0 : Int) ≤ (d : Int))]
    rw [show ((d : Int)).toNat = d from by omega, divLoop_eq]
  refine ⟨hpart1, ?_, hA, hC⟩
  rcases Nat.eq_zero_or_pos d with hdz | hdp
  · subst hdz
    have ht : t = q.expo := by omega
    subst ht
    unfold PriceConf.scale_to_exponent
    simp only
    rw [sub_self]
    rw [show wrap32 0 = 0 from
      wrap32_eq_self (by unfold i32Min; omega) (by unfold i32Max; omega)]
    rw [if_pos (le_refl 0)]
    simp only [Int.toNat_zero, divLoop]
    norm_num
  · unfold PriceConf.scale_to_exponent
    simp only
    have hw2 : wrap32 (q.expo - t) = q.expo - t :=
      wrap32_eq_self (by unfold i32Min i32Max at *; omega) (by unfold i32Max at *; omega)
    rw [hw2, if_neg (by omega : ¬(0 : Int) ≤ q.expo - t)]
    rw [show (-(q.expo - t)).toNat = d from by omega]
    rw [mulLoop_eq d _ _ hB1.1 hB1.2 hB3]

/-- C7 witness: widening `{12345, 678, -4}` to exponent `-2` truncates
to `{123, 6, -2}`; narrowing back recovers `{12300, 600, -4}`, whose
magnitudes do not exceed the originals. -/
theorem C7_witness :
    PriceConf.scale_to_exponent ⟨12345, 678, -4⟩ (-2) = some ⟨123, 6, -2⟩ ∧
      PriceConf.scale_to_exponent ⟨123, 6, -2⟩ (-4) = some ⟨12300, 600, -4⟩ := by
  have h := C7_scale_roundtrip ⟨12345, 678, -4⟩ (-2) 2 (by decide) (by decide) (by decide)
  exact ⟨h.1.trans (by decide), h.2.1.trans (by decide)⟩

/-- C8: the `assert!` inside `to_unsigned` holds at every `div` and
`mul` call site, because both operands are normalized first and
normalization bounds the price magnitude by `2^28 - 1`; the panic branch
is unreachable — `div` and `mul` never panic, on any input. -/
theorem C8_no_panic (a b : PriceConf) :
    a.div b ≠ RustOutcome.panicked ∧ a.mul b ≠ RustOutcome.panicked := by
  constructor
  · unfold PriceConf.div
    cases ha : a.normalize with
    | none => simp
    | some base =>
      cases hb : b.normalize with
      | none => simp
      | some o =>
        obtain ⟨bp, hbp⟩ := to_unsigned_ok (normalize_bounds ha).1 (normalize_bounds ha).2.1
        obtain ⟨op, hop⟩ := to_unsigned_ok (normalize_bounds hb).1 (normalize_bounds hb).2.1
        by_cases hz : o.price = 0
        · simp [hz]
        · simp only [hz, hbp, hop, if_false]
          cases hsub : i32CheckedSub base.expo o.expo with
          | none => simp [hsub]
          | some t =>
            simp only [hsub]
            cases hadd : i32CheckedAdd t PD_EXPO with
            | none => simp [hadd]
            | some me =>
              simp only [hadd]
              split <;> simp
  · unfold PriceConf.mul
    cases ha : a.normalize with
    | none => simp
    | some base =>
      cases hb : b.normalize with
      | none => simp
      | some o =>
        obtain ⟨bp, hbp⟩ := to_unsigned_ok (normalize_bounds ha).1 (normalize_bounds ha).2.1
        obtain ⟨op, hop⟩ := to_unsigned_ok (normalize_bounds hb).1 (normalize_bounds hb).2.1
        simp only [hbp, hop]
        cases hadd : i32CheckedAdd base.expo o.expo with
        | none => simp [hadd]
        | some me => simp [hadd]

/-- C9 (counterexample): `normalize` does not succeed for every zero
price: with a huge confidence and the exponent already at `i32::MAX`,
the first exponent increment overflows and the result is `None`. -/
theorem C9_counterexample :
    PriceConf.normalize ⟨0, 18446744073709551615, 2147483647⟩ = none := by
  unfold PriceConf.normalize
  rw [normalizeLoop]
  norm_num [MAX_PD_V_U64, MAX_PD_V_I64, MIN_PD_V_I64, i32CheckedAdd, i32Min, i32Max]

/-- C9 (amended): `normalize` returns `None` exactly when the exponent
increments performed by the loop would push the exponent beyond
`i32::MAX`; zero and negative prices are handled (they do not in
themselves cause failure), division is truncation toward zero, and the
sign of a nonzero result price equals the sign of the input price. -/
theorem C9_normalize_failure (q : PriceConf) (h1 : i32Min ≤ q.expo) (h2 : q.expo ≤ i32Max) :
    (q.normalize = none ↔ i32Max < q.expo + (normSteps q.price q.conf : Int)) ∧
    (∀ r, q.normalize = some r →
      (0 ≤ q.price → 0 ≤ r.price) ∧ (q.price ≤ 0 → r.price ≤ 0) ∧
      (r.price ≠ 0 → (0 < r.price ↔ 0 < q.price))) := by
  constructor
  · exact normalizeLoop_none_iff q.price q.conf q.expo h1 h2
  · intro r hr
    have hs := normalizeLoop_sign q.price q.conf q.expo r hr
    refine ⟨hs.1, hs.2, fun hne => ⟨fun hpos => ?_, fun hpos => ?_⟩⟩
    · by_contra hle
      push_neg at hle
      have := hs.2 hle
      omega
    · have := hs.1 (le_of_lt hpos)
      omega

/-- C9 witness: a negative price is normalized (two truncating division
steps) and the result stays nonpositive. -/
theorem C9_witness :
    PriceConf.normalize ⟨-10000000000, 3, 5⟩ = some ⟨-100000000, 0, 7⟩ ∧
      (-100000000 : Int) ≤ 0 := by
  have t1 : Int.tdiv (-10000000000) 10 = -1000000000 := by decide
  have t2 : Int.tdiv (-1000000000) 10 = -100000000 := by decide
  have hev : PriceConf.normalize ⟨-10000000000, 3, 5⟩ = some ⟨-100000000, 0, 7⟩ := by
    unfold PriceConf.normalize
    rw [normalizeLoop]
    norm_num [MAX_PD_V_I64, MIN_PD_V_I64, MAX_PD_V_U64, i32CheckedAdd, i32Min, i32Max, t1]
    rw [normalizeLoop]
    norm_num [MAX_PD_V_I64, MIN_PD_V_I64, MAX_PD_V_U64, i32CheckedAdd, i32Min, i32Max, t2]
    rw [normalizeLoop]
    norm_num [MAX_PD_V_I64, MIN_PD_V_I64, MAX_PD_V_U64]
  have h := (C9_normalize_failure ⟨-10000000000, 3, 5⟩ (by decide) (by decide)).2
    ⟨-100000000, 0, 7⟩ hev
  exact ⟨hev, h.2.1 (by norm_num)⟩

end Pyth
